import Mathlib

/-
Verification of the task-plan engine of the pyAFQ repository.

The development shallowly embeds the plan-construction and task functions of
`AFQ/tasks/mapping.py`, `AFQ/tasks/segmentation.py` and
`scripts/parse_test_results.py`.  Python dictionaries become association
lists with insert-or-replace semantics (matching Python dict assignment,
which preserves insertion order and replaces in place), the filesystem
becomes a list of existing file names, and functions that may raise become
`Except`-valued functions.

Helper code of the repository that is not part of the provided sources
(`AFQ.tasks.utils.with_name`, `AFQ.tasks.utils.get_fname`,
`AFQ.tasks.utils.get_default_args`, the `pimms` plan engine, and
`AFQ.segmentation.clean_bundle`) is modelled from the specification; each
such definition carries a doc comment starting with `Modelled from the
spec:`.
-/

namespace PyAFQ

/-- Model of a `pimms` calc object: a task with the name of the Python
function it wraps, its required input names (the non-defaulted parameters of
the Python function), and the output names declared in the
`@pimms.calc(...)` decorator. -/
structure Task where
  fname : String
  inputs : List String
  outputs : List String
deriving DecidableEq, Repr

/-- Registry of tasks keyed by string, as built from a Python dict. -/
abbrev Registry := List (String × Task)

/-- Python dict assignment `d[k] = v`: replace the first binding of `k` in
place if present (Python dicts keep the original insertion position on
re-assignment), otherwise append the new binding. -/
def dictSet : Registry → String → Task → Registry
  | [], k, v => [(k, v)]
  | (k', v') :: rest, k, v =>
    if k' = k then (k, v) :: rest else (k', v') :: dictSet rest k v

/-- Keys of a registry. -/
def regKeys (reg : Registry) : List String := reg.map Prod.fst

/-- Values of a registry, in insertion order. -/
def regValues (reg : Registry) : List Task := reg.map Prod.snd

/-- Modelled from the spec: `AFQ.tasks.utils.with_name` (not under `src/`)
builds the task dict passed to `pimms.plan`; per the override
`mapping_tasks["mapping_res"] = sls_mapping` in `get_mapping_plan`, each
task is keyed by its function name with the suffix `_res`. -/
def with_name (ts : List Task) : Registry :=
  ts.map (fun t => (t.fname ++ "_res", t))

/-- Modelled from the spec: a Plan maps each output name to the Task that
produces it (spec section 3, "a mapping from output-name to Task").  The
producer of an output is the task in the registry declaring it among its
outputs. -/
def producer (reg : Registry) (o : String) : Option Task :=
  (regValues reg).find? (fun t => t.outputs.contains o)

/-- Output names exposed by a plan, in task order. -/
def planOutputs (reg : Registry) : List String :=
  (regValues reg).flatMap Task.outputs

/-- Model of a Python runtime value, as far as the plan code inspects one:
booleans, strings, integers, `None`, and string-keyed dicts.  Only truthiness
and dict-ness are ever used by the embedded code. -/
inductive PyVal where
  | pybool (b : Bool)
  | pystr (s : String)
  | pyint (n : Int)
  | pynone
  | pydict (entries : List (String × PyVal))

/-- Python truthiness of a `PyVal`, as used by `if use_sls:`. -/
def PyVal.truthy : PyVal → Bool
  | .pybool b => b
  | .pystr s => s != ""
  | .pyint n => n != 0
  | .pynone => false
  | .pydict entries => !entries.isEmpty

/-- Test used by `isinstance(v, dict)`. -/
def PyVal.isDict : PyVal → Bool
  | .pydict _ => true
  | _ => false

/-- Element of `kwargs["scalars"]` in `get_mapping_plan`: either an instance
of `AFQ.definitions.utils.Definition` (carrying a `name`) or a plain scalar
string, which the scalar loop skips. -/
inductive Scalar where
  | definition (name : String)
  | plain (s : String)

/-- Task record of `export_registered_b0` (mapping.py, lines 22-32). -/
def export_registered_b0_calc : Task :=
  ⟨"export_registered_b0", ["subses_dict", "data_imap", "mapping"],
    ["b0_warped_file"]⟩

/-- Task record of `template_xform` (mapping.py, lines 35-45). -/
def template_xform_calc : Task :=
  ⟨"template_xform", ["subses_dict", "dwi_affine", "mapping", "data_imap"],
    ["template_xform_file"]⟩

/-- Task record of `export_rois` (mapping.py, lines 48-88). -/
def export_rois_calc : Task :=
  ⟨"export_rois", ["subses_dict", "data_imap", "mapping", "dwi_affine"],
    ["rois_file"]⟩

/-- Task record of `mapping` (mapping.py, lines 91-121); `mapping_definition`
is optional (defaulted) and hence not a required input. -/
def mapping_calc : Task :=
  ⟨"mapping", ["subses_dict", "reg_subject", "data_imap", "bids_info"],
    ["mapping"]⟩

/-- Task record of `sls_mapping` (mapping.py, lines 124-173). -/
def sls_mapping_calc : Task :=
  ⟨"sls_mapping",
    ["subses_dict", "reg_subject", "data_imap", "bids_info",
      "tractography_imap"],
    ["mapping"]⟩

/-- Task record of `get_reg_subject` (mapping.py, lines 176-226);
`reg_subject_spec` is optional. -/
def get_reg_subject_calc : Task :=
  ⟨"get_reg_subject", ["data_imap", "bids_info", "subses_dict", "dwi_affine"],
    ["reg_subject"]⟩

/-- Task record of the calc built for a custom scalar in the loop of
`get_mapping_plan` (mapping.py, lines 252-253):
`pimms.calc(f"\x7bscalar.name\x7d_file")(scalar.get_for_subses())`. -/
def scalar_file_calc (name : String) : Task :=
  ⟨name ++ "_get_for_subses", ["subses_dict"], [name ++ "_file"]⟩

/-- Literal dict key used by the scalar loop of `get_mapping_plan`
(mapping.py, line 252).  The source writes
`mapping_tasks["\x7bscalar.name\x7d_file_res"]` without an f-prefix on the
string, so the key is this literal, not an interpolation. -/
def scalarResKey : String := "\x7bscalar.name\x7d_file_res"

/-- Scalar loop of `get_mapping_plan` (mapping.py, lines 236-253): every
`Definition` scalar is registered under the literal key `scalarResKey`
(the `find_path` calls are path side effects with no effect on the plan). -/
def addScalarTasks : List Scalar → Registry → Registry
  | [], reg => reg
  | .definition name :: rest, reg =>
    addScalarTasks rest (dictSet reg scalarResKey (scalar_file_calc name))
  | .plain _ :: rest, reg => addScalarTasks rest reg

/-- Embedding of `get_mapping_plan` (mapping.py, lines 229-258): build the
task dict with `with_name`, register custom `Definition` scalars, and if
`use_sls` is truthy replace the entry keyed `"mapping_res"` by
`sls_mapping`.  No validation of `use_sls` is performed. -/
def get_mapping_plan (scalars : List Scalar) (use_sls : PyVal) : Registry :=
  let mapping_tasks := with_name
    [export_registered_b0_calc, template_xform_calc, export_rois_calc,
      mapping_calc, get_reg_subject_calc]
  let mapping_tasks := addScalarTasks scalars mapping_tasks
  if use_sls.truthy then
    dictSet mapping_tasks "mapping_res" sls_mapping_calc
  else
    mapping_tasks

/-- The task dict built by `with_name` at the top of `get_mapping_plan`. -/
def mappingBase : Registry :=
  with_name
    [export_registered_b0_calc, template_xform_calc, export_rois_calc,
      mapping_calc, get_reg_subject_calc]

theorem dictSet_append_not_mem {l₁ : Registry} (l₂ : Registry) {k : String}
    (v : Task) (h : k ∉ regKeys l₁) :
    dictSet (l₁ ++ l₂) k v = l₁ ++ dictSet l₂ k v := by
  induction l₁ with
  | nil => rfl
  | cons hd tl ih =>
    have h1 : hd.1 ≠ k := by
      intro e
      exact h (by simp [regKeys, e])
    have h2 : k ∉ regKeys tl := by
      intro e
      apply h
      simp only [regKeys, List.map_cons, List.mem_cons]
      exact Or.inr (by simpa [regKeys] using e)
    simp [dictSet, h1, ih h2]

theorem dictSet_append_mem {l₁ : Registry} (l₂ : Registry) {k : String}
    (v : Task) (h : k ∈ regKeys l₁) :
    dictSet (l₁ ++ l₂) k v = dictSet l₁ k v ++ l₂ := by
  induction l₁ with
  | nil => simp [regKeys] at h
  | cons hd tl ih =>
    by_cases e : hd.1 = k
    · simp [dictSet, e]
    · have h2 : k ∈ regKeys tl := by
        simp only [regKeys, List.map_cons, List.mem_cons] at h
        rcases h with h | h
        · exact absurd h.symm e
        · simpa [regKeys] using h
      simp [dictSet, e, ih h2]

theorem addScalarTasks_append (scalars : List Scalar) {l₁ : Registry}
    (l₂ : Registry) (h : scalarResKey ∉ regKeys l₁) :
    addScalarTasks scalars (l₁ ++ l₂) = l₁ ++ addScalarTasks scalars l₂ := by
  induction scalars generalizing l₂ with
  | nil => rfl
  | cons sc rest ih =>
    cases sc with
    | plain s => exact ih l₂
    | definition name =>
      show addScalarTasks rest (dictSet (l₁ ++ l₂) scalarResKey _) = _
      rw [dictSet_append_not_mem _ _ h]
      exact ih _

theorem addScalarTasks_single (scalars : List Scalar) (n : String) :
    ∃ n', addScalarTasks scalars [(scalarResKey, scalar_file_calc n)]
      = [(scalarResKey, scalar_file_calc n')] := by
  induction scalars generalizing n with
  | nil => exact ⟨n, rfl⟩
  | cons sc rest ih =>
    cases sc with
    | plain s => exact ih n
    | definition m =>
      have hset :
          dictSet [(scalarResKey, scalar_file_calc n)] scalarResKey
            (scalar_file_calc m) = [(scalarResKey, scalar_file_calc m)] := by
        simp [dictSet]
      show (∃ n', addScalarTasks rest
        (dictSet [(scalarResKey, scalar_file_calc n)] scalarResKey
          (scalar_file_calc m)) = _)
      rw [hset]
      exact ih m

theorem addScalarTasks_nil_char (scalars : List Scalar) :
    addScalarTasks scalars [] = [] ∨
      ∃ n, addScalarTasks scalars []
        = [(scalarResKey, scalar_file_calc n)] := by
  induction scalars with
  | nil => exact Or.inl rfl
  | cons sc rest ih =>
    cases sc with
    | plain s => exact ih
    | definition m =>
      right
      show ∃ n, addScalarTasks rest (dictSet [] scalarResKey _) = _
      exact addScalarTasks_single rest m

theorem find?_append_some {α : Type} {p : α → Bool} {l₁ : List α}
    (l₂ : List α) {a : α} (h : l₁.find? p = some a) :
    (l₁ ++ l₂).find? p = some a := by
  induction l₁ with
  | nil => exact absurd h (by simp)
  | cons hd tl ih =>
    by_cases e : p hd
    · rw [List.find?_cons_of_pos _ e] at h
      rw [List.cons_append, List.find?_cons_of_pos _ e]
      exact h
    · rw [List.find?_cons_of_neg _ e] at h
      rw [List.cons_append, List.find?_cons_of_neg _ e]
      exact ih h

theorem regValues_append (l₁ l₂ : Registry) :
    regValues (l₁ ++ l₂) = regValues l₁ ++ regValues l₂ := by
  simp [regValues]

theorem producer_append_some {l₁ : Registry} (l₂ : Registry) {o : String}
    {t : Task} (h : producer l₁ o = some t) :
    producer (l₁ ++ l₂) o = some t := by
  unfold producer at h ⊢
  rw [regValues_append]
  exact find?_append_some _ h

theorem planOutputs_append (l₁ l₂ : Registry) :
    planOutputs (l₁ ++ l₂) = planOutputs l₁ ++ planOutputs l₂ := by
  simp [planOutputs, regValues]

/-- Decomposition of `get_mapping_plan`: the returned registry is the base
task dict (with the `mapping_res` entry replaced by `sls_mapping` when the
selector is truthy) followed by whatever the scalar loop appended. -/
theorem get_mapping_plan_eq (scalars : List Scalar) (v : PyVal) :
    get_mapping_plan scalars v =
      (if v.truthy then dictSet mappingBase "mapping_res" sls_mapping_calc
        else mappingBase) ++ addScalarTasks scalars [] := by
  have hkey : scalarResKey ∉ regKeys mappingBase := by decide
  have hmem : "mapping_res" ∈ regKeys mappingBase := by decide
  have hsc : addScalarTasks scalars mappingBase
      = mappingBase ++ addScalarTasks scalars [] := by
    conv =>
      lhs
      rw [show mappingBase = mappingBase ++ [] from (List.append_nil _).symm]
    exact addScalarTasks_append scalars [] hkey
  show (if v.truthy then
      dictSet (addScalarTasks scalars mappingBase) "mapping_res"
        sls_mapping_calc
    else addScalarTasks scalars mappingBase) = _
  cases hv : v.truthy with
  | false =>
    simpa using hsc
  | true =>
    simp only [if_pos rfl, hsc]
    exact dictSet_append_mem _ _ hmem

theorem producer_ext_eq {A B : Registry} (extra : Registry) {o : String}
    {t : Task} (hA : producer A o = some t) (hB : producer B o = some t) :
    producer (A ++ extra) o = producer (B ++ extra) o := by
  rw [producer_append_some _ hA, producer_append_some _ hB]

/-- C1: for every kwargs scalar list, the plan returned by
`get_mapping_plan` with `use_sls=True` has its `"mapping"` output produced
by the `sls_mapping` task while with `use_sls=False` it is produced by the
default `mapping` task; the tasks producing `b0_warped_file`,
`template_xform_file`, `rois_file` and `reg_subject` coincide between the
two plans, and both plans expose exactly the same output names. -/
theorem C1_use_sls_swaps_only_mapping (scalars : List Scalar) :
    producer (get_mapping_plan scalars (.pybool true)) "mapping"
        = some sls_mapping_calc ∧
    producer (get_mapping_plan scalars (.pybool false)) "mapping"
        = some mapping_calc ∧
    producer (get_mapping_plan scalars (.pybool true)) "b0_warped_file"
        = producer (get_mapping_plan scalars (.pybool false))
            "b0_warped_file" ∧
    producer (get_mapping_plan scalars (.pybool true)) "template_xform_file"
        = producer (get_mapping_plan scalars (.pybool false))
            "template_xform_file" ∧
    producer (get_mapping_plan scalars (.pybool true)) "rois_file"
        = producer (get_mapping_plan scalars (.pybool false)) "rois_file" ∧
    producer (get_mapping_plan scalars (.pybool true)) "reg_subject"
        = producer (get_mapping_plan scalars (.pybool false)) "reg_subject" ∧
    planOutputs (get_mapping_plan scalars (.pybool true))
        = planOutputs (get_mapping_plan scalars (.pybool false)) := by
  have hT := get_mapping_plan_eq scalars (.pybool true)
  have hF := get_mapping_plan_eq scalars (.pybool false)
  rw [show (PyVal.pybool true).truthy = true from rfl] at hT
  rw [show (PyVal.pybool false).truthy = false from rfl] at hF
  simp only [if_true] at hT
  rw [hT, hF]
  refine ⟨producer_append_some _ (by decide), ?_, ?_, ?_, ?_, ?_, ?_⟩
  · show producer (mappingBase ++ addScalarTasks scalars []) "mapping"
      = some mapping_calc
    exact producer_append_some _ (by decide)
  · exact producer_ext_eq _
      (show producer _ "b0_warped_file" = some export_registered_b0_calc by
        decide)
      (by decide)
  · exact producer_ext_eq _
      (show producer _ "template_xform_file" = some template_xform_calc by
        decide)
      (by decide)
  · exact producer_ext_eq _
      (show producer _ "rois_file" = some export_rois_calc by decide)
      (by decide)
  · exact producer_ext_eq _
      (show producer _ "reg_subject" = some get_reg_subject_calc by decide)
      (by decide)
  · show planOutputs
        (dictSet mappingBase "mapping_res" sls_mapping_calc
          ++ addScalarTasks scalars [])
      = planOutputs (mappingBase ++ addScalarTasks scalars [])
    rw [planOutputs_append, planOutputs_append]
    have hout : planOutputs (dictSet mappingBase "mapping_res"
        sls_mapping_calc) = planOutputs mappingBase := by decide
    rw [hout]

/-- C4 counterexample: `get_mapping_plan` performs no validation of the
`use_sls` selector.  The unrecognized selector value
`"not-a-recognized-selector"` is accepted without any configuration error:
plan construction succeeds, the (truthy) value selects `sls_mapping`, and
the plan exposes the usual outputs. -/
theorem C4_counterexample :
    PyVal.truthy (.pystr "not-a-recognized-selector") = true ∧
    producer (get_mapping_plan [] (.pystr "not-a-recognized-selector"))
        "mapping" = some sls_mapping_calc ∧
    planOutputs (get_mapping_plan [] (.pystr "not-a-recognized-selector"))
      = ["b0_warped_file", "template_xform_file", "rois_file", "mapping",
          "reg_subject"] := by
  decide

/-- C4 amended: `get_mapping_plan` accepts every selector value without
validation; any truthy value makes `sls_mapping` the producer of
`"mapping"` and any falsy value keeps the default `mapping` task, and plan
construction always succeeds. -/
theorem C4_amended_selector_truthiness (scalars : List Scalar) (v : PyVal) :
    producer (get_mapping_plan scalars v) "mapping"
      = some (if v.truthy then sls_mapping_calc else mapping_calc) := by
  rw [get_mapping_plan_eq]
  cases hv : v.truthy with
  | false =>
    show producer (mappingBase ++ addScalarTasks scalars []) "mapping"
      = some mapping_calc
    exact producer_append_some _ (by decide)
  | true =>
    show producer (dictSet mappingBase "mapping_res" sls_mapping_calc
        ++ addScalarTasks scalars []) "mapping" = some sls_mapping_calc
    exact producer_append_some _ (by decide)

/-- Subject/session identity of a task invocation: the `subses_dict` of the
source reduced to the fields the embedded tasks read (`results_dir`), plus
the subject/session entity base name that `get_fname` puts at the front of
every artifact basename. -/
structure SubsesDict where
  results_dir : String
  fbase : String
deriving DecidableEq, Repr

/-- Modelled from the spec: the parameter fingerprint is "a deterministic
encoding of task-relevant parameters used to distinguish cached artifacts";
it is modelled as an abstract fingerprint number encoded injectively in
unary. -/
def fpChars (n : Nat) : List Char := List.replicate n 'f'

/-- Modelled from the spec: `AFQ.tasks.utils.get_fname` is not under
`src/`.  Per the spec the deterministic target filename is derived "from
subject/session identity, an output-type suffix, and the parameter
fingerprint of all parameters the wrapped Task declares as relevant"; calls
that pass no `tracking_params`/`segmentation_params` (as in `export_rois`)
embed no fingerprint. -/
def get_fname (subses : SubsesDict) (sfx : String)
    (params : Option (Nat × Nat)) : String :=
  subses.results_dir ++ "/" ++ subses.fbase ++
    (match params with
      | none => ""
      | some p =>
        "_track-" ++ String.mk (fpChars p.1) ++ "_seg-"
          ++ String.mk (fpChars p.2)) ++ sfx

/-- Tail component of `os.path.split(path)`: everything after the last
slash. -/
def basenameOf (p : String) : String :=
  String.mk ((p.data.reverse.takeWhile (fun c => c != '/')).reverse)

/-- Sidecar name `fname.split('.')[0] + '.json'`: the part of the path
before its first dot, with `.json` appended. -/
def metaName (fname : String) : String :=
  String.mk (fname.data.takeWhile (fun c => c != '.')) ++ ".json"

/-- Inclusion tag computed from `bundle_dict[bundle]['rules'][ii]`
(mapping.py lines 61-64). -/
def inclusionTag (rule : Bool) : String :=
  if rule then "include" else "exclude"

/-- Target file name of one warped ROI, exactly as computed by
`export_rois` (mapping.py lines 55-71): the basename of
`get_fname(subses_dict, f'_desc-ROI-\x7bbundle\x7d-\x7bii + 1\x7d-\x7binclusion\x7d.nii.gz')`
joined under `results_dir/ROIs`.  No tracking or segmentation parameters
are passed to `get_fname` here, so no parameter fingerprint enters the
name. -/
def roiFname (subses : SubsesDict) (bundle : String) (ii : Nat)
    (rule : Bool) : String :=
  subses.results_dir ++ "/ROIs/" ++
    basenameOf (get_fname subses
      ("_desc-ROI-" ++ bundle ++ "-" ++ Nat.repr (ii + 1) ++ "-"
        ++ inclusionTag rule ++ ".nii.gz") none)

/-- Entry of a bundle dictionary, restricted to the fields the embedded
tasks read: the ROIs (abstract handles), the parallel `rules` list, and the
bundle `uid`. -/
structure BundleEntry where
  ROIs : List Nat
  rules : List Bool
  uid : Nat
deriving DecidableEq, Repr

/-- Bundle dictionary: bundle name to entry, in iteration order. -/
abbrev BundleDict := List (String × BundleEntry)

/-- Result of `export_rois`: the returned `roi_files` dictionary, the
filesystem afterwards, and the log of ROI files whose warp was actually
computed and saved (the body of the `if not op.exists(fname)` branch). -/
structure RoisResult where
  roi_files : List (String × List String)
  fs : List String
  computed : List String
deriving DecidableEq, Repr

/-- Inner loop of `export_rois` over
`enumerate(bundle_dict[bundle]['ROIs'])` (mapping.py lines 60-87),
threading the filesystem and accumulating the per-bundle path list and the
log of computed files.  When the target exists nothing is computed or
written; otherwise `transform_inverse_roi` runs, `nib.save` writes the
image and `afd.write_json` writes the sidecar.  `rules[ii]` is read with a
default in the out-of-range case, which would raise in Python and does not
occur for well-formed bundle dictionaries. -/
def roisLoop (subses : SubsesDict) (bundle : String) (rules : List Bool) :
    List Nat → Nat → List String →
      (List String × List String × List String)
  | [], _, fs => ([], fs, [])
  | _roi :: rest, ii, fs =>
    let fname := roiFname subses bundle ii (rules.getD ii false)
    if fname ∈ fs then
      let r := roisLoop subses bundle rules rest (ii + 1) fs
      (fname :: r.1, r.2.1, r.2.2)
    else
      let fs' := metaName fname :: fname :: fs
      let r := roisLoop subses bundle rules rest (ii + 1) fs'
      (fname :: r.1, r.2.1, fname :: r.2.2)

/-- Embedding of `export_rois` (mapping.py lines 48-88) over an explicit
filesystem (list of existing file names). -/
def export_rois (subses : SubsesDict) :
    BundleDict → List String → RoisResult
  | [], fs => ⟨[], fs, []⟩
  | (bname, entry) :: rest, fs =>
    let r := roisLoop subses bname entry.rules entry.ROIs 0 fs
    let rr := export_rois subses rest r.2.1
    ⟨(bname, r.1) :: rr.roi_files, rr.fs, r.2.2 ++ rr.computed⟩

/-- Target paths of `export_rois` for one bundle: the same name computation
as `roisLoop`, independent of the filesystem. -/
def roiTargets1 (subses : SubsesDict) (bundle : String)
    (rules : List Bool) : List Nat → Nat → List String
  | [], _ => []
  | _ :: rest, ii =>
    roiFname subses bundle ii (rules.getD ii false)
      :: roiTargets1 subses bundle rules rest (ii + 1)

/-- Target `roi_files` dictionary of `export_rois`, independent of the
filesystem. -/
def roiTargets (subses : SubsesDict) :
    BundleDict → List (String × List String)
  | [] => []
  | (bname, entry) :: rest =>
    (bname, roiTargets1 subses bname entry.rules entry.ROIs 0)
      :: roiTargets subses rest

/-- Fault-injected run of the `export_rois` loop: `afd.write_json` raises
on the k-th ROI actually computed (counting from 0), after `nib.save` has
already written the image file — the source (mapping.py lines 72-87)
performs the two writes back to back with no cleanup handler and no atomic
rename.  The error value is the filesystem at the moment the exception
propagates. -/
def roisLoopFail (subses : SubsesDict) (bundle : String)
    (rules : List Bool) :
    List Nat → Nat → List String → Nat →
      Except (List String) (List String × List String × Nat)
  | [], _, fs, k => .ok (fs, [], k)
  | _roi :: rest, ii, fs, k =>
    let fname := roiFname subses bundle ii (rules.getD ii false)
    if fname ∈ fs then
      roisLoopFail subses bundle rules rest (ii + 1) fs k
    else
      if k = 0 then
        .error (fname :: fs)
      else
        let fs' := metaName fname :: fname :: fs
        match roisLoopFail subses bundle rules rest (ii + 1) fs' (k - 1) with
        | .error e => .error e
        | .ok r => .ok (r.1, fname :: r.2.1, r.2.2)

/-- Fault-injected `export_rois`: as `export_rois`, but the sidecar write
of the k-th computed ROI raises and the exception propagates (the
filesystem at that point is the error value). -/
def export_rois_fail (subses : SubsesDict) :
    BundleDict → List String → Nat → Except (List String) (List String × Nat)
  | [], fs, k => .ok (fs, k)
  | (bname, entry) :: rest, fs, k =>
    match roisLoopFail subses bname entry.rules entry.ROIs 0 fs k with
    | .error e => .error e
    | .ok r => export_rois_fail subses rest r.1 r.2.2

/-- Per-bundle target file name computed by `export_bundles`
(segmentation.py lines 210-217): `get_fname` is called with
`tracking_params` and `segmentation_params`, so both fingerprints are part
of the basename, which is joined under `results_dir/<folder>`. -/
def bundleFname (subses : SubsesDict) (folder bundle : String)
    (tracking_params segmentation_params : Nat) : String :=
  subses.results_dir ++ "/" ++ folder ++ "/" ++
    basenameOf (get_fname subses ("-" ++ bundle ++ "_tractography.trk")
      (some (tracking_params, segmentation_params)))

/-- Inner loop of `export_bundles` over the bundle dictionary
(segmentation.py lines 200-223) for one of the two tractogram folders:
every bundle other than `whole_brain` is saved unconditionally together
with its JSON sidecar. -/
def bundlesLoop (subses : SubsesDict) (folder : String)
    (tracking_params segmentation_params : Nat) :
    BundleDict → List String → (List String × List String)
  | [], fs => (fs, [])
  | (bname, _entry) :: rest, fs =>
    if bname = "whole_brain" then
      bundlesLoop subses folder tracking_params segmentation_params rest fs
    else
      let fname := bundleFname subses folder bname tracking_params
        segmentation_params
      let r := bundlesLoop subses folder tracking_params
        segmentation_params rest (metaName fname :: fname :: fs)
      (r.1, fname :: r.2)

/-- Embedding of `export_bundles` (segmentation.py lines 171-224): the
cleaned and the uncleaned tractogram are exported in turn, to the
`clean_bundles` and `bundles` folders; the result is the filesystem
afterwards and the list of saved bundle files. -/
def export_bundles (subses : SubsesDict) (bd : BundleDict)
    (tracking_params segmentation_params : Nat) (fs : List String) :
    (List String × List String) :=
  let r1 := bundlesLoop subses "clean_bundles" tracking_params
    segmentation_params bd fs
  let r2 := bundlesLoop subses "bundles" tracking_params
    segmentation_params bd r1.1
  (r2.1, r1.2 ++ r2.2)

/-- Cached artifact file names produced for one subject by the ROI task and
the per-bundle export task under a given pair of parameter fingerprints
(used to state C3). -/
def cachedFnames (subses : SubsesDict) (bd : BundleDict)
    (tp sp : Nat) : List String :=
  (export_rois subses bd []).computed
    ++ (export_bundles subses bd tp sp []).2

/-- Predicate for path components that contain no slash. -/
def noSlash (s : String) : Prop := '/' ∉ s.data

instance (s : String) : Decidable (noSlash s) := by
  unfold noSlash
  infer_instance

/-- Length of the leading run of `'f'`s, used to decode the unary
fingerprints back out of a filename. -/
def countF (l : List Char) : Nat :=
  (l.takeWhile (fun c => c == 'f')).length

theorem roisLoop_paths (subses : SubsesDict) (bundle : String)
    (rules : List Bool) :
    ∀ (rois : List Nat) (ii : Nat) (fs : List String),
      (roisLoop subses bundle rules rois ii fs).1
        = roiTargets1 subses bundle rules rois ii := by
  intro rois
  induction rois with
  | nil => intro ii fs; rfl
  | cons roi rest ih =>
    intro ii fs
    simp only [roisLoop, roiTargets1]
    split <;> simp [ih]

theorem roisLoop_fs_mono (subses : SubsesDict) (bundle : String)
    (rules : List Bool) (a : String) :
    ∀ (rois : List Nat) (ii : Nat) (fs : List String), a ∈ fs →
      a ∈ (roisLoop subses bundle rules rois ii fs).2.1 := by
  intro rois
  induction rois with
  | nil => intro ii fs ha; exact ha
  | cons roi rest ih =>
    intro ii fs ha
    simp only [roisLoop]
    split
    · exact ih _ _ ha
    · exact ih _ _ (List.mem_cons_of_mem _ (List.mem_cons_of_mem _ ha))

theorem roisLoop_targets_mem (subses : SubsesDict) (bundle : String)
    (rules : List Bool) :
    ∀ (rois : List Nat) (ii : Nat) (fs : List String),
      ∀ t ∈ roiTargets1 subses bundle rules rois ii,
        t ∈ (roisLoop subses bundle rules rois ii fs).2.1 := by
  intro rois
  induction rois with
  | nil => intro ii fs t ht; simp [roiTargets1] at ht
  | cons roi rest ih =>
    intro ii fs t ht
    simp only [roiTargets1, List.mem_cons] at ht
    simp only [roisLoop]
    rcases ht with rfl | ht
    · split
      · next h => exact roisLoop_fs_mono _ _ _ _ _ _ _ h
      · exact roisLoop_fs_mono _ _ _ _ _ _ _
          (List.mem_cons_of_mem _ (List.mem_cons_self _ _))
    · split
      · exact ih _ _ t ht
      · exact ih _ _ t ht

theorem roisLoop_skip (subses : SubsesDict) (bundle : String)
    (rules : List Bool) :
    ∀ (rois : List Nat) (ii : Nat) (fs : List String),
      (∀ t ∈ roiTargets1 subses bundle rules rois ii, t ∈ fs) →
        roisLoop subses bundle rules rois ii fs
          = (roiTargets1 subses bundle rules rois ii, fs, []) := by
  intro rois
  induction rois with
  | nil => intro ii fs _; rfl
  | cons roi rest ih =>
    intro ii fs h
    have hmem : roiFname subses bundle ii (rules.getD ii false) ∈ fs :=
      h _ (by simp [roiTargets1])
    have htail : ∀ t ∈ roiTargets1 subses bundle rules rest (ii + 1),
        t ∈ fs := by
      intro t ht
      exact h t (by simp [roiTargets1, ht])
    simp only [roisLoop, roiTargets1, if_pos hmem, ih _ _ htail]

theorem roisLoop_computed_fresh (subses : SubsesDict) (bundle : String)
    (rules : List Bool) :
    ∀ (rois : List Nat) (ii : Nat) (fs : List String) (f : String),
      f ∈ (roisLoop subses bundle rules rois ii fs).2.2 → f ∉ fs := by
  intro rois
  induction rois with
  | nil => intro ii fs f hf; simp [roisLoop] at hf
  | cons roi rest ih =>
    intro ii fs f hf
    simp only [roisLoop] at hf
    by_cases h : roiFname subses bundle ii (rules.getD ii false) ∈ fs
    · rw [if_pos h] at hf
      exact ih _ _ f hf
    · rw [if_neg h] at hf
      simp only [List.mem_cons] at hf
      rcases hf with rfl | hf
      · exact h
      · intro hfs
        exact ih _ _ f hf
          (List.mem_cons_of_mem _ (List.mem_cons_of_mem _ hfs))

theorem export_rois_paths (subses : SubsesDict) :
    ∀ (bd : BundleDict) (fs : List String),
      (export_rois subses bd fs).roi_files = roiTargets subses bd := by
  intro bd
  induction bd with
  | nil => intro fs; rfl
  | cons be rest ih =>
    intro fs
    simp only [export_rois, roiTargets, roisLoop_paths, ih]

theorem export_rois_fs_mono (subses : SubsesDict) (a : String) :
    ∀ (bd : BundleDict) (fs : List String), a ∈ fs →
      a ∈ (export_rois subses bd fs).fs := by
  intro bd
  induction bd with
  | nil => intro fs ha; exact ha
  | cons be rest ih =>
    intro fs ha
    simp only [export_rois]
    exact ih _ (roisLoop_fs_mono _ _ _ _ _ _ _ ha)

theorem export_rois_targets_mem (subses : SubsesDict) :
    ∀ (bd : BundleDict) (fs : List String),
      ∀ p ∈ roiTargets subses bd, ∀ t ∈ p.2,
        t ∈ (export_rois subses bd fs).fs := by
  intro bd
  induction bd with
  | nil => intro fs p hp; simp [roiTargets] at hp
  | cons be rest ih =>
    intro fs p hp t ht
    simp only [roiTargets, List.mem_cons] at hp
    simp only [export_rois]
    rcases hp with rfl | hp
    · exact export_rois_fs_mono _ _ _ _
        (roisLoop_targets_mem _ _ _ _ _ _ _ ht)
    · exact ih _ p hp t ht

theorem export_rois_skip (subses : SubsesDict) :
    ∀ (bd : BundleDict) (fs : List String),
      (∀ p ∈ roiTargets subses bd, ∀ t ∈ p.2, t ∈ fs) →
        export_rois subses bd fs = ⟨roiTargets subses bd, fs, []⟩ := by
  intro bd
  induction bd with
  | nil => intro fs _; rfl
  | cons be rest ih =>
    intro fs h
    have hhead : ∀ t ∈ roiTargets1 subses be.1 be.2.rules be.2.ROIs 0,
        t ∈ fs := by
      intro t ht
      exact h (be.1, roiTargets1 subses be.1 be.2.rules be.2.ROIs 0)
        (by simp [roiTargets]) t ht
    have htail : ∀ p ∈ roiTargets subses rest, ∀ t ∈ p.2, t ∈ fs := by
      intro p hp t ht
      exact h p (by simp [roiTargets, hp]) t ht
    simp only [export_rois, roiTargets]
    rw [roisLoop_skip _ _ _ _ _ _ hhead]
    simp [ih _ htail]

theorem export_rois_computed_fresh (subses : SubsesDict) :
    ∀ (bd : BundleDict) (fs : List String) (f : String),
      f ∈ (export_rois subses bd fs).computed → f ∉ fs := by
  intro bd
  induction bd with
  | nil => intro fs f hf; simp [export_rois] at hf
  | cons be rest ih =>
    intro fs f hf
    simp only [export_rois, List.mem_append] at hf
    rcases hf with hf | hf
    · exact roisLoop_computed_fresh _ _ _ _ _ _ _ hf
    · intro hfs
      exact ih _ f hf (roisLoop_fs_mono _ _ _ _ _ _ _ hfs)

/-- C2: if an ROI target file already exists, `export_rois` neither
recomputes nor rewrites it and still returns its path (the returned path
dictionary is the filesystem-independent target list, and everything it
does compute was absent); consequently a second call with identical inputs
returns the same paths, performs no computation, and leaves the filesystem
unchanged. -/
theorem C2_export_rois_memoization (subses : SubsesDict) (bd : BundleDict)
    (fs : List String) :
    (export_rois subses bd fs).roi_files = roiTargets subses bd ∧
    (∀ f ∈ (export_rois subses bd fs).computed, f ∉ fs) ∧
    (export_rois subses bd (export_rois subses bd fs).fs).roi_files
      = (export_rois subses bd fs).roi_files ∧
    (export_rois subses bd (export_rois subses bd fs).fs).computed = [] ∧
    (export_rois subses bd (export_rois subses bd fs).fs).fs
      = (export_rois subses bd fs).fs := by
  have hsecond : export_rois subses bd (export_rois subses bd fs).fs
      = ⟨roiTargets subses bd, (export_rois subses bd fs).fs, []⟩ :=
    export_rois_skip subses bd _
      (fun p hp t ht => export_rois_targets_mem subses bd fs p hp t ht)
  refine ⟨export_rois_paths subses bd fs,
    fun f hf => export_rois_computed_fresh subses bd fs f hf, ?_, ?_, ?_⟩
  · rw [hsecond, export_rois_paths]
  · rw [hsecond]
  · rw [hsecond]

theorem roisLoopFail_ok_mono (subses : SubsesDict) (bundle : String)
    (rules : List Bool) (a : String) :
    ∀ (rois : List Nat) (ii : Nat) (fs : List String) (k : Nat)
      (r : List String × List String × Nat),
      roisLoopFail subses bundle rules rois ii fs k = .ok r →
        a ∈ fs → a ∈ r.1 := by
  intro rois
  induction rois with
  | nil =>
    intro ii fs k r h ha
    simp only [roisLoopFail] at h
    cases h
    exact ha
  | cons roi rest ih =>
    intro ii fs k r h ha
    simp only [roisLoopFail] at h
    by_cases hmem : roiFname subses bundle ii (rules.getD ii false) ∈ fs
    · rw [if_pos hmem] at h
      exact ih _ _ _ _ h ha
    · rw [if_neg hmem] at h
      by_cases hk : k = 0
      · rw [if_pos hk] at h
        cases h
      · rw [if_neg hk] at h
        rcases he : roisLoopFail subses bundle rules rest (ii + 1)
            (metaName (roiFname subses bundle ii (rules.getD ii false))
              :: roiFname subses bundle ii (rules.getD ii false) :: fs)
            (k - 1) with e | r'
        · rw [he] at h
          cases h
        · rw [he] at h
          cases h
          exact ih _ _ _ r' he
            (List.mem_cons_of_mem _ (List.mem_cons_of_mem _ ha))

theorem roisLoopFail_error (subses : SubsesDict) (bundle : String)
    (rules : List Bool) :
    ∀ (rois : List Nat) (ii : Nat) (fs : List String) (k : Nat)
      (e : List String),
      roisLoopFail subses bundle rules rois ii fs k = .error e →
        ∃ f rest, e = f :: rest ∧ f ∉ rest ∧ ∀ a ∈ fs, a ∈ rest := by
  intro rois
  induction rois with
  | nil =>
    intro ii fs k e h
    simp only [roisLoopFail] at h
    exact Except.noConfusion h
  | cons roi rest ih =>
    intro ii fs k e h
    simp only [roisLoopFail] at h
    by_cases hmem : roiFname subses bundle ii (rules.getD ii false) ∈ fs
    · rw [if_pos hmem] at h
      exact ih _ _ _ _ h
    · rw [if_neg hmem] at h
      by_cases hk : k = 0
      · rw [if_pos hk] at h
        cases h
        exact ⟨_, fs, rfl, hmem, fun a ha => ha⟩
      · rw [if_neg hk] at h
        rcases he : roisLoopFail subses bundle rules rest (ii + 1)
            (metaName (roiFname subses bundle ii (rules.getD ii false))
              :: roiFname subses bundle ii (rules.getD ii false) :: fs)
            (k - 1) with e' | r'
        · rw [he] at h
          cases h
          obtain ⟨f, tail, rfl, hf, hsub⟩ := ih _ _ _ _ he
          exact ⟨f, tail, rfl, hf, fun a ha =>
            hsub a (List.mem_cons_of_mem _ (List.mem_cons_of_mem _ ha))⟩
        · rw [he] at h
          cases h

theorem export_rois_fail_error (subses : SubsesDict) :
    ∀ (bd : BundleDict) (fs : List String) (k : Nat) (e : List String),
      export_rois_fail subses bd fs k = .error e →
        ∃ f rest, e = f :: rest ∧ f ∉ rest ∧ ∀ a ∈ fs, a ∈ rest := by
  intro bd
  induction bd with
  | nil =>
    intro fs k e h
    simp only [export_rois_fail] at h
    exact Except.noConfusion h
  | cons be rest ih =>
    intro fs k e h
    simp only [export_rois_fail] at h
    rcases he : roisLoopFail subses be.1 be.2.rules be.2.ROIs 0 fs k
      with e' | r
    · rw [he] at h
      cases h
      exact roisLoopFail_error subses be.1 be.2.rules _ _ _ _ _ he
    · rw [he] at h
      obtain ⟨f, tail, rfl, hf, hsub⟩ := ih _ _ _ h
      exact ⟨f, tail, rfl, hf, fun a ha =>
        hsub a (roisLoopFail_ok_mono subses be.1 be.2.rules a _ _ _ _ _
          he ha)⟩

deriving instance DecidableEq for Except

/-- Example subject/session used for concrete evaluations. -/
def subsesEx : SubsesDict := ⟨"/study/out", "sub-01"⟩

/-- Example bundle dictionary with one bundle and two inclusion ROIs. -/
def bdEx : BundleDict := [("ARC", ⟨[7, 8], [true, true], 1⟩)]

/-- C6 counterexample: a failure partway through `export_rois` does leave a
partial cached artifact in place that satisfies the existence check of a
later run.  Starting from an empty filesystem, if the sidecar write of the
first computed ROI raises (after `nib.save` wrote the image), the image
file alone remains; its sidecar is absent; a later full run's existence
check accepts the image file — it recomputes only the second ROI — and the
missing sidecar is never written. -/
theorem C6_counterexample :
    export_rois_fail subsesEx bdEx [] 0
      = .error [roiFname subsesEx "ARC" 0 true] ∧
    metaName (roiFname subsesEx "ARC" 0 true)
      ∉ [roiFname subsesEx "ARC" 0 true] ∧
    roiFname subsesEx "ARC" 0 true
      ∉ (export_rois subsesEx bdEx
          [roiFname subsesEx "ARC" 0 true]).computed ∧
    (export_rois subsesEx bdEx [roiFname subsesEx "ARC" 0 true]).computed
      = [roiFname subsesEx "ARC" 1 true] ∧
    metaName (roiFname subsesEx "ARC" 0 true)
      ∉ (export_rois subsesEx bdEx [roiFname subsesEx "ARC" 0 true]).fs := by
  decide

/-- C6 amended: `export_rois` neither cleans up nor writes atomically; if
the computation raises partway through, whatever was already written stays
on disk.  Whenever a fault-injected run fails, some newly written image
file remains in the resulting filesystem, and a later full run's existence
check accepts it and does not recompute it. -/
theorem C6_amended_partial_artifact (subses : SubsesDict) (bd : BundleDict)
    (fs : List String) (k : Nat) (e : List String)
    (h : export_rois_fail subses bd fs k = .error e) :
    ∃ f, f ∈ e ∧ f ∉ fs ∧ f ∉ (export_rois subses bd e).computed := by
  obtain ⟨f, tail, rfl, hf, hsub⟩ := export_rois_fail_error subses bd fs k _ h
  refine ⟨f, List.mem_cons_self _ _, ?_, ?_⟩
  · intro hfs
    exact hf (hsub f hfs)
  · intro hc
    exact export_rois_computed_fresh subses bd _ f hc
      (List.mem_cons_self _ _)

/-- Witness for `C6_amended_partial_artifact` at a concrete failing run. -/
theorem C6_amended_partial_artifact_witness :
    export_rois_fail subsesEx bdEx [] 0
        = .error [roiFname subsesEx "ARC" 0 true] ∧
    (∃ f, f ∈ [roiFname subsesEx "ARC" 0 true] ∧ f ∉ ([] : List String) ∧
      f ∉ (export_rois subsesEx bdEx
        [roiFname subsesEx "ARC" 0 true]).computed) :=
  ⟨by decide, C6_amended_partial_artifact subsesEx bdEx [] 0
    [roiFname subsesEx "ARC" 0 true] (by decide)⟩

theorem basename_append (l₁ l₂ : List Char) (h : '/' ∉ l₂) :
    ((l₁ ++ '/' :: l₂).reverse.takeWhile (fun c => c != '/')).reverse
      = l₂ := by
  rw [List.reverse_append, List.reverse_cons, List.append_assoc]
  rw [List.takeWhile_append_of_pos]
  · rw [List.singleton_append, List.takeWhile_cons_of_neg (by simp)]
    rw [List.append_nil, List.reverse_reverse]
  · intro a ha
    have : a ∈ l₂ := List.mem_reverse.mp ha
    simp only [bne_iff_ne, ne_eq]
    intro e
    exact h (e ▸ this)

theorem slash_not_mem_fpChars (n : Nat) : '/' ∉ fpChars n := by
  simp [fpChars, List.mem_replicate]

theorem countF_replicate (t : Nat) (c : Char) (rest : List Char)
    (hc : (c == 'f') = false) :
    countF (List.replicate t 'f' ++ c :: rest) = t := by
  induction t with
  | zero =>
    show countF (c :: rest) = 0
    unfold countF
    rw [List.takeWhile_cons_of_neg (by simp [hc])]
    rfl
  | succ n ih =>
    show countF ('f' :: (List.replicate n 'f' ++ c :: rest)) = n + 1
    unfold countF at ih ⊢
    rw [List.takeWhile_cons_of_pos (by rfl), List.length_cons, ih]

/-- Common left part of every `export_bundles` file name for a fixed
subject and folder, up to the point where the tracking fingerprint
starts. -/
def bfPre (subses : SubsesDict) (folder : String) : List Char :=
  subses.results_dir.data ++ '/' :: folder.data
    ++ '/' :: subses.fbase.data ++ "_track-".data

/-- Fingerprint-and-suffix block of an `export_bundles` file name. -/
def fpBlock (t s : Nat) (bundle : String) : List Char :=
  fpChars t ++ '_' :: ("seg-".data
    ++ (fpChars s ++ '-' :: (bundle.data ++ "_tractography.trk".data)))

theorem bundleFname_data (subses : SubsesDict) (folder bundle : String)
    (t s : Nat) (h1 : noSlash subses.fbase) (h2 : noSlash bundle) :
    (bundleFname subses folder bundle t s).data
      = bfPre subses folder ++ fpBlock t s bundle := by
  have hX : (get_fname subses ("-" ++ bundle ++ "_tractography.trk")
        (some (t, s))).data
      = subses.results_dir.data
        ++ '/' :: (subses.fbase.data ++ ("_track-".data ++ fpBlock t s bundle)) := by
    simp only [get_fname, String.data_append, fpBlock, fpChars]
    simp [List.append_assoc]
  have hmem : '/' ∉ subses.fbase.data
      ++ ("_track-".data ++ fpBlock t s bundle) := by
    intro hin
    rcases List.mem_append.mp hin with hin | hin
    · exact h1 hin
    rcases List.mem_append.mp hin with hin | hin
    · revert hin; decide
    unfold fpBlock at hin
    rcases List.mem_append.mp hin with hin | hin
    · exact slash_not_mem_fpChars t hin
    rcases List.mem_cons.mp hin with hin | hin
    · exact absurd hin (by decide)
    rcases List.mem_append.mp hin with hin | hin
    · revert hin; decide
    rcases List.mem_append.mp hin with hin | hin
    · exact slash_not_mem_fpChars s hin
    rcases List.mem_cons.mp hin with hin | hin
    · exact absurd hin (by decide)
    rcases List.mem_append.mp hin with hin | hin
    · exact h2 hin
    · revert hin; decide
  have hbase : (basenameOf (get_fname subses
        ("-" ++ bundle ++ "_tractography.trk") (some (t, s)))).data
      = subses.fbase.data ++ ("_track-".data ++ fpBlock t s bundle) := by
    show ((get_fname subses ("-" ++ bundle ++ "_tractography.trk")
        (some (t, s))).data.reverse.takeWhile (fun c => c != '/')).reverse
      = _
    rw [hX]
    exact basename_append _ _ hmem
  show (subses.results_dir ++ "/" ++ folder ++ "/"
      ++ basenameOf (get_fname subses ("-" ++ bundle ++ "_tractography.trk")
        (some (t, s)))).data = _
  simp only [String.data_append, hbase, bfPre]
  simp [List.append_assoc]

theorem fpBlock_inj (bundle : String) (t₁ s₁ t₂ s₂ : Nat)
    (h : fpBlock t₁ s₁ bundle = fpBlock t₂ s₂ bundle) :
    t₁ = t₂ ∧ s₁ = s₂ := by
  unfold fpBlock fpChars at h
  have ht : t₁ = t₂ := by
    have h1 := congrArg countF h
    rw [countF_replicate _ _ _ (by decide),
      countF_replicate _ _ _ (by decide)] at h1
    exact h1
  subst ht
  have h2 := List.append_cancel_left h
  injection h2 with h4 h5
  have h6 := List.append_cancel_left h5
  have hs : s₁ = s₂ := by
    have h7 := congrArg countF h6
    rw [countF_replicate _ _ _ (by decide),
      countF_replicate _ _ _ (by decide)] at h7
    exact h7
  exact ⟨rfl, hs⟩

/-- C3 counterexample: two parameter sets with different tracking
fingerprints nevertheless share a cached artifact filename, because
`export_rois` passes no tracking or segmentation parameters to `get_fname`
(mapping.py lines 66-69): the ROI file name is identical under both
parameter sets. -/
theorem C3_counterexample :
    ((0, 0) : Nat × Nat) ≠ (1, 0) ∧
    roiFname subsesEx "ARC" 0 true ∈ cachedFnames subsesEx bdEx 0 0 ∧
    roiFname subsesEx "ARC" 0 true ∈ cachedFnames subsesEx bdEx 1 0 := by
  decide

/-- C3 amended: the per-bundle files written by `export_bundles` embed both
parameter fingerprints in their names, and two parameter sets that differ
in either fingerprint produce distinct filenames for the same
subject/session, folder and bundle (bundle and subject base names being
slash-free path components); the ROI files written by `export_rois`,
however, embed no fingerprint and coincide across parameter sets. -/
theorem C3_amended_bundle_fnames_distinct (subses : SubsesDict)
    (folder bundle : String) (h1 : noSlash subses.fbase)
    (h2 : noSlash bundle) (t₁ s₁ t₂ s₂ : Nat)
    (hne : (t₁, s₁) ≠ (t₂, s₂)) :
    bundleFname subses folder bundle t₁ s₁
      ≠ bundleFname subses folder bundle t₂ s₂ := by
  intro heq
  apply hne
  have hd := congrArg String.data heq
  rw [bundleFname_data subses folder bundle t₁ s₁ h1 h2,
    bundleFname_data subses folder bundle t₂ s₂ h1 h2] at hd
  have hb := List.append_cancel_left hd
  obtain ⟨ht, hs⟩ := fpBlock_inj bundle t₁ s₁ t₂ s₂ hb
  rw [ht, hs]

/-- Witness for `C3_amended_bundle_fnames_distinct` at concrete inputs. -/
theorem C3_amended_bundle_fnames_distinct_witness :
    noSlash subsesEx.fbase ∧ noSlash "ARC" ∧
    ((0, 0) : Nat × Nat) ≠ (1, 0) ∧
    bundleFname subsesEx "bundles" "ARC" 0 0
      ≠ bundleFname subsesEx "bundles" "ARC" 1 0 :=
  ⟨by decide, by decide, by decide,
    C3_amended_bundle_fnames_distinct subsesEx "bundles" "ARC" (by decide)
      (by decide) 0 0 1 0 (by decide)⟩

/-- Modelled from the spec: the dependency-resolution loop of the plan
engine (spec section 4.1) over a list of required input names, threading
the cache of already-available names and concatenating the execution
logs.  The resolution of a single name is passed in as `f`. -/
def resolveList
    (f : String → List String → Except String (List String × List String)) :
    List String → List String → Except String (List String × List String)
  | [], cache => .ok (cache, [])
  | inp :: rest, cache =>
    match f inp cache with
    | .error e => .error e
    | .ok r =>
      match resolveList f rest r.1 with
      | .error e => .error e
      | .ok r2 => .ok (r2.1, r.2 ++ r2.2)

/-- Modelled from the spec: plan resolution (spec section 4.1).  A
requested name already present in the cache (computed earlier or supplied
externally) is reused without executing anything; otherwise the producing
task's required inputs are resolved first, in declaration order, then the
task executes: its outputs enter the cache and its function name is
appended to the execution log.  A name with no producer is an
unresolvable-dependency error; `fuel` bounds the recursion depth. -/
def resolve (plan : Registry) :
    Nat → String → List String → Except String (List String × List String)
  | 0 => fun _ _ => .error "resolution depth exceeded"
  | fuel + 1 => fun name cache =>
    if name ∈ cache then
      .ok (cache, [])
    else
      match producer plan name with
      | none => .error ("unresolvable dependency: " ++ name)
      | some t =>
        match resolveList (resolve plan fuel) t.inputs cache with
        | .error e => .error e
        | .ok r => .ok (t.outputs ++ r.1, r.2 ++ [t.fname])

/-- External values supplied to the mapping plan at invocation time. -/
def mappingExternals : List String :=
  ["subses_dict", "data_imap", "dwi_affine", "bids_info",
    "tractography_imap"]

/-- C7: in the mapping plan, the task producing `"rois_file"`
(`export_rois`) declares `"mapping"` as a required input; resolving
`"rois_file"` from the externally supplied values executes
`get_reg_subject`, then the `mapping` task, then `export_rois` — so the
producer of `"mapping"` runs before `export_rois` — and a second request
for `"rois_file"` against the resulting cache reuses the cached results
and executes no task at all. -/
theorem C7_rois_file_depends_on_mapping :
    "mapping" ∈ export_rois_calc.inputs ∧
    producer (get_mapping_plan [] (.pybool false)) "rois_file"
      = some export_rois_calc ∧
    resolve (get_mapping_plan [] (.pybool false)) 10 "rois_file"
        mappingExternals
      = .ok ("rois_file" :: "mapping" :: "reg_subject" :: mappingExternals,
          ["get_reg_subject", "mapping", "export_rois"]) ∧
    resolve (get_mapping_plan [] (.pybool false)) 10 "rois_file"
        ("rois_file" :: "mapping" :: "reg_subject" :: mappingExternals)
      = .ok ("rois_file" :: "mapping" :: "reg_subject" :: mappingExternals,
          []) := by
  refine ⟨by decide, by decide, by decide, by decide⟩

/-- Python dict assignment `d[k] = v` for `PyVal` dicts: replace the first
binding of `k` in place if present, otherwise append. -/
def pyDictSet : List (String × PyVal) → String → PyVal →
    List (String × PyVal)
  | [], k, v => [(k, v)]
  | (k', v') :: rest, k, v =>
    if k' = k then (k, v) :: rest else (k', v') :: pyDictSet rest k v

/-- The loop `for k in kwargs["segmentation_params"]:
default_seg_params[k] = kwargs["segmentation_params"][k]` applied to an
accumulator dict: each user binding is assigned over the accumulated
defaults, in iteration order. -/
def pyUpdate : List (String × PyVal) → List (String × PyVal) →
    List (String × PyVal)
  | acc, [] => acc
  | acc, kv :: rest => pyUpdate (pyDictSet acc kv.1 kv.2) rest

/-- Task record of `segment` (segmentation.py, lines 30-86). -/
def segment_calc : Task :=
  ⟨"segment",
    ["subses_dict", "data_imap", "mapping_imap", "tractography_imap",
      "tracking_params", "segmentation_params"],
    ["bundles_file"]⟩

/-- Task record of `clean_bundles` (segmentation.py, lines 89-167);
`clean_params` is optional. -/
def clean_bundles_calc : Task :=
  ⟨"clean_bundles",
    ["subses_dict", "bundles_file", "data_imap", "tracking_params",
      "segmentation_params"],
    ["clean_bundles_file"]⟩

/-- Task record of `export_bundles` (segmentation.py, lines 170-224). -/
def export_bundles_calc : Task :=
  ⟨"export_bundles",
    ["subses_dict", "clean_bundles_file", "bundles_file", "data_imap",
      "tracking_params", "segmentation_params"],
    ["indiv_bundles"]⟩

/-- Task record of `export_sl_counts` (segmentation.py, lines 227-261). -/
def export_sl_counts_calc : Task :=
  ⟨"export_sl_counts",
    ["subses_dict", "data_imap", "clean_bundles_file", "bundles_file",
      "tracking_params", "segmentation_params"],
    ["sl_counts_file"]⟩

/-- Task record of `tract_profiles` (segmentation.py, lines 264-363);
`profile_weights` is optional. -/
def tract_profiles_calc : Task :=
  ⟨"tract_profiles",
    ["subses_dict", "clean_bundles_file", "data_imap", "scalar_dict",
      "dwi_affine", "tracking_params", "segmentation_params"],
    ["profiles_file"]⟩

/-- Task record of `get_scalar_dict` (segmentation.py, lines 366-388);
`scalars` is optional. -/
def get_scalar_dict_calc : Task :=
  ⟨"get_scalar_dict", ["data_imap", "mapping_imap"], ["scalar_dict"]⟩

/-- The task dict built by `with_name` in `get_segmentation_plan`
(segmentation.py, lines 396-402). -/
def segTasks : Registry :=
  with_name
    [get_scalar_dict_calc, export_sl_counts_calc, export_bundles_calc,
      clean_bundles_calc, segment_calc, tract_profiles_calc]

/-- Modelled from the spec: the defaults of `seg.Segmentation.__init__`
read by `get_default_args` (`AFQ.segmentation` and
`AFQ.tasks.utils.get_default_args` are not under `src/`); only the fact
that every parameter has a named default value matters here. -/
def default_seg_params : List (String × PyVal) :=
  [("nb_points", .pybool false), ("seg_algo", .pystr "AFQ"),
    ("progressive", .pybool true), ("return_idx", .pybool false),
    ("filter_by_endpoints", .pybool true)]

/-- Merged segmentation parameters: defaults from
`seg.Segmentation.__init__` overwritten by the user-supplied entries, in
iteration order (segmentation.py, lines 404-407). -/
def mergeSegParams (entries : List (String × PyVal)) :
    List (String × PyVal) :=
  pyUpdate default_seg_params entries

/-- Embedding of `get_segmentation_plan` (segmentation.py, lines 391-410):
a present, non-dict `segmentation_params` raises `TypeError` first, before
the task dict or the plan is built; otherwise the defaults are merged with
the user entries, written back into `kwargs`, and the plan over the six
segmentation tasks is returned. -/
def get_segmentation_plan (kwargs : List (String × PyVal)) :
    Except String (Registry × List (String × PyVal)) :=
  match kwargs.lookup "segmentation_params" with
  | some (.pydict entries) =>
    .ok (segTasks, pyDictSet kwargs "segmentation_params"
      (.pydict (mergeSegParams entries)))
  | some _ => .error "segmentation_params a dict"
  | none =>
    .ok (segTasks, pyDictSet kwargs "segmentation_params"
      (.pydict default_seg_params))

theorem lookup_cons_ne {β : Type} (es : List (String × β)) (k a : String)
    (b : β) (h : a ≠ k) : ((k, b) :: es).lookup a = es.lookup a := by
  rw [List.lookup_cons]
  rw [show (a == k) = false from beq_eq_false_iff_ne.mpr h]

theorem pyDictSet_lookup_self (d : List (String × PyVal)) (k : String)
    (v : PyVal) : (pyDictSet d k v).lookup k = some v := by
  induction d with
  | nil => simp [pyDictSet]
  | cons kv rest ih =>
    by_cases h : kv.1 = k
    · simp [pyDictSet, h]
    · simp only [pyDictSet]
      rw [if_neg h, lookup_cons_ne _ _ _ _ (Ne.symm h)]
      exact ih

theorem pyDictSet_lookup_other (d : List (String × PyVal)) (k k' : String)
    (v : PyVal) (h : k' ≠ k) :
    (pyDictSet d k v).lookup k' = d.lookup k' := by
  induction d with
  | nil =>
    show ((k, v) :: []).lookup k' = List.lookup k' []
    rw [lookup_cons_ne _ _ _ _ h]
  | cons kv rest ih =>
    by_cases hk : kv.1 = k
    · subst hk
      simp only [pyDictSet, if_true]
      rw [lookup_cons_ne _ _ _ _ h, lookup_cons_ne _ _ _ _ h]
    · simp only [pyDictSet]
      rw [if_neg hk]
      by_cases hk' : k' = kv.1
      · subst hk'
        rw [List.lookup_cons_self, List.lookup_cons_self]
      · rw [lookup_cons_ne _ _ _ _ hk', lookup_cons_ne _ _ _ _ hk']
        exact ih

theorem pyUpdate_lookup_none :
    ∀ (entries acc : List (String × PyVal)) (k : String),
      entries.lookup k = none →
        (pyUpdate acc entries).lookup k = acc.lookup k := by
  intro entries
  induction entries with
  | nil => intro acc k _; rfl
  | cons kv rest ih =>
    intro acc k h
    by_cases hk : k = kv.1
    · subst hk
      rw [List.lookup_cons_self] at h
      cases h
    · rw [lookup_cons_ne _ _ _ _ hk] at h
      show (pyUpdate (pyDictSet acc kv.1 kv.2) rest).lookup k = _
      rw [ih _ _ h, pyDictSet_lookup_other _ _ _ _ hk]

theorem lookup_eq_none_of_not_mem_keys
    (entries : List (String × PyVal)) (k : String)
    (h : k ∉ entries.map Prod.fst) : entries.lookup k = none := by
  induction entries with
  | nil => rfl
  | cons kv rest ih =>
    simp only [List.map_cons, List.mem_cons] at h
    push_neg at h
    rw [lookup_cons_ne _ _ _ _ h.1]
    exact ih h.2

theorem pyUpdate_lookup_some :
    ∀ (entries acc : List (String × PyVal)) (k : String) (v : PyVal),
      (entries.map Prod.fst).Nodup → entries.lookup k = some v →
        (pyUpdate acc entries).lookup k = some v := by
  intro entries
  induction entries with
  | nil =>
    intro acc k v _ h
    simp at h
  | cons kv rest ih =>
    intro acc k v hnd h
    simp only [List.map_cons, List.nodup_cons] at hnd
    by_cases hk : k = kv.1
    · subst hk
      rw [List.lookup_cons_self] at h
      cases h
      show (pyUpdate (pyDictSet acc kv.1 kv.2) rest).lookup kv.1 = _
      rw [pyUpdate_lookup_none rest _ _
        (lookup_eq_none_of_not_mem_keys rest _ hnd.1)]
      exact pyDictSet_lookup_self _ _ _
    · rw [lookup_cons_ne _ _ _ _ hk] at h
      exact ih _ _ _ hnd.2 h

/-- C5: a `kwargs` whose `segmentation_params` value is not a dict makes
`get_segmentation_plan` raise `TypeError` immediately, before any plan is
built; a dict value yields the plan over the six segmentation tasks
together with merged parameters in which user-supplied keys override the
defaults of `seg.Segmentation.__init__` and unspecified keys keep their
default values. -/
theorem C5_segmentation_params_validation
    (kwargs : List (String × PyVal)) :
    (∀ v, kwargs.lookup "segmentation_params" = some v →
      v.isDict = false →
        get_segmentation_plan kwargs
          = .error "segmentation_params a dict") ∧
    (∀ entries, kwargs.lookup "segmentation_params"
        = some (.pydict entries) →
      (entries.map Prod.fst).Nodup →
        get_segmentation_plan kwargs
            = .ok (segTasks, pyDictSet kwargs "segmentation_params"
              (.pydict (mergeSegParams entries))) ∧
          (pyDictSet kwargs "segmentation_params"
              (.pydict (mergeSegParams entries))).lookup
              "segmentation_params"
            = some (.pydict (mergeSegParams entries)) ∧
          (∀ k v, entries.lookup k = some v →
            (mergeSegParams entries).lookup k = some v) ∧
          (∀ k, entries.lookup k = none →
            (mergeSegParams entries).lookup k
              = default_seg_params.lookup k)) := by
  constructor
  · intro v hv hd
    unfold get_segmentation_plan
    rw [hv]
    cases v <;> simp_all [PyVal.isDict]
  · intro entries hv hnd
    refine ⟨?_, pyDictSet_lookup_self _ _ _, ?_, ?_⟩
    · unfold get_segmentation_plan
      rw [hv]
    · intro k v h
      exact pyUpdate_lookup_some entries _ k v hnd h
    · intro k h
      exact pyUpdate_lookup_none entries _ k h

/-- Witness for `C5_segmentation_params_validation` at concrete inputs:
an integer-valued `segmentation_params` raises, a dict-valued one builds
the plan with the user's `seg_algo` overriding the default. -/
theorem C5_segmentation_params_validation_witness :
    get_segmentation_plan [("segmentation_params", PyVal.pyint 3)]
        = .error "segmentation_params a dict" ∧
    (get_segmentation_plan
        [("segmentation_params",
          PyVal.pydict [("seg_algo", PyVal.pystr "Reco")])]
        = .ok (segTasks, pyDictSet
            [("segmentation_params",
              PyVal.pydict [("seg_algo", PyVal.pystr "Reco")])]
            "segmentation_params"
            (.pydict (mergeSegParams [("seg_algo", PyVal.pystr "Reco")]))) ∧
      (pyDictSet
          [("segmentation_params",
            PyVal.pydict [("seg_algo", PyVal.pystr "Reco")])]
          "segmentation_params"
          (.pydict (mergeSegParams
            [("seg_algo", PyVal.pystr "Reco")]))).lookup
          "segmentation_params"
        = some (.pydict (mergeSegParams
            [("seg_algo", PyVal.pystr "Reco")])) ∧
      (∀ k v, ([("seg_algo", PyVal.pystr "Reco")] :
            List (String × PyVal)).lookup k = some v →
        (mergeSegParams [("seg_algo", PyVal.pystr "Reco")]).lookup k
          = some v) ∧
      (∀ k, ([("seg_algo", PyVal.pystr "Reco")] :
            List (String × PyVal)).lookup k = none →
        (mergeSegParams [("seg_algo", PyVal.pystr "Reco")]).lookup k
          = default_seg_params.lookup k)) :=
  ⟨(C5_segmentation_params_validation
      [("segmentation_params", PyVal.pyint 3)]).1 (PyVal.pyint 3) rfl rfl,
    (C5_segmentation_params_validation
      [("segmentation_params",
        PyVal.pydict [("seg_algo", PyVal.pystr "Reco")])]).2
      [("seg_algo", PyVal.pystr "Reco")] rfl (by simp)⟩

/-- Model of a Python value passed as `profile_weights`: `None`, a string,
a callable, an array-like carrying `__len__`, or any other object with none
of these properties (e.g. an int). -/
inductive PWeights where
  | pyNone
  | pyStr (s : String)
  | pyCallable
  | pyWithLen (n : Nat)
  | pyOther
deriving DecidableEq, Repr

/-- Python `str.lower()`, applied character by character. -/
def pyLower (s : String) : String := String.mk (s.data.map Char.toLower)

/-- Name-to-uid reverse dictionary built by `tract_profiles`
(segmentation.py lines 300-306) from the non-`whole_brain` bundles. -/
def reverseDict (bd : BundleDict) : List (Nat × String) :=
  (bd.filter (fun e => e.1 != "whole_brain")).map (fun e => (e.2.uid, e.1))

/-- Row skeleton `(tractID, nodeID)` built by the profile loop of
`tract_profiles` (segmentation.py lines 308-351): for each distinct bundle
label present in the cleaned tractogram (in sorted order, as `np.unique`
returns), one row per each of the 100 nodes.  The numeric profile values
come from external library calls and are not modelled; a label absent from
the bundle dictionary raises `KeyError` in Python and is read with a
default here. -/
def profileRows (bd : BundleDict) (sft : List (Nat × Nat)) :
    List (String × Nat) :=
  (((sft.map Prod.snd).dedup).insertionSort (· ≤ ·)).flatMap
    (fun b => (List.range 100).map
      (fun node => (((reverseDict bd).lookup b).getD "", node)))

/-- Embedding of `tract_profiles` (segmentation.py lines 264-363): the
`profile_weights` validation (lines 285-298) runs first — a value that is
not `None`, not a string, not callable and has no `__len__` raises
`TypeError`, and a string other than (case-insensitively) `"gauss"` or
`"median"` raises `TypeError` — and only then does the per-bundle profile
computation begin. -/
def tract_profiles (profile_weights : PWeights) (bd : BundleDict)
    (sft : List (Nat × Nat)) : Except String (List (String × Nat)) :=
  match profile_weights with
  | .pyOther =>
    .error "profile_weights must be string, None, callable, ora 1D or 2D array"
  | .pyStr s =>
    if pyLower s ≠ "gauss" ∧ pyLower s ≠ "median" then
      .error "if profile_weights is a string, it must be \x27gauss\x27 or \x27median\x27"
    else
      .ok (profileRows bd sft)
  | _ => .ok (profileRows bd sft)

/-- Values of `profile_weights` accepted by the validation of
`tract_profiles`. -/
def acceptedPW : PWeights → Bool
  | .pyOther => false
  | .pyStr s => pyLower s == "gauss" || pyLower s == "median"
  | _ => true

/-- C8: `tract_profiles` raises `TypeError` for a `profile_weights` that is
not `None`, not a string, not callable and has no `__len__`, and for a
string that is not case-insensitively `"gauss"` or `"median"`; both errors
are raised before the streamline/scalar computation begins (the result
carries no computed rows), and every accepted value passes the validation
without error. -/
theorem C8_profile_weights_validation (pw : PWeights) (bd : BundleDict)
    (sft : List (Nat × Nat)) :
    (pw = .pyOther → tract_profiles pw bd sft
      = .error "profile_weights must be string, None, callable, ora 1D or 2D array") ∧
    (∀ s, pw = .pyStr s → pyLower s ≠ "gauss" → pyLower s ≠ "median" →
      tract_profiles pw bd sft
        = .error "if profile_weights is a string, it must be \x27gauss\x27 or \x27median\x27") ∧
    (acceptedPW pw = true →
      tract_profiles pw bd sft = .ok (profileRows bd sft)) := by
  refine ⟨?_, ?_, ?_⟩
  · intro h
    subst h
    rfl
  · intro s h hg hm
    subst h
    simp [tract_profiles, hg, hm]
  · intro h
    cases pw with
    | pyOther => simp [acceptedPW] at h
    | pyStr s =>
      simp only [acceptedPW, Bool.or_eq_true, beq_iff_eq] at h
      rcases h with h | h <;> simp [tract_profiles, h]
    | pyNone => rfl
    | pyCallable => rfl
    | pyWithLen n => rfl

/-- Witness for `C8_profile_weights_validation` at concrete inputs: the
mixed-case string `"GAUSS"` is accepted. -/
theorem C8_profile_weights_validation_witness :
    acceptedPW (.pyStr "GAUSS") = true ∧
    tract_profiles (.pyStr "GAUSS") bdEx [(5, 1)]
      = .ok (profileRows bdEx [(5, 1)]) :=
  ⟨by decide,
    (C8_profile_weights_validation (.pyStr "GAUSS") bdEx [(5, 1)]).2.2
      (by decide)⟩

/-- Embedding of the cleaning loop of `clean_bundles` (segmentation.py
lines 120-152): streamlines are modelled as abstract handles paired with
their `data_per_streamline['bundle']` label; for each bundle other than
`whole_brain`, the input streamlines carrying that bundle's uid are
selected, cleaned by `seg.clean_bundle` (passed in as `cleanFn`, an
external collaborator), relabelled with the same uid and concatenated. -/
def clean_bundles (cleanFn : List Nat → List Nat) :
    BundleDict → List (Nat × Nat) → List (Nat × Nat)
  | [], _ => []
  | (bname, entry) :: rest, sft =>
    if bname = "whole_brain" then
      clean_bundles cleanFn rest sft
    else
      let this_tg := (sft.filter (fun p => p.2 == entry.uid)).map Prod.fst
      (cleanFn this_tg).map (fun sl => (sl, entry.uid))
        ++ clean_bundles cleanFn rest sft

/-- C9: provided the external `seg.clean_bundle` only selects streamlines
from its input (it removes outliers), every streamline in the tractogram
returned by `clean_bundles` carries a bundle label equal to the uid of
some non-`whole_brain` bundle of the dictionary, and each labelled
streamline already occurred in the input with that same label — cleaning
never relabels or adds streamlines. -/
theorem C9_clean_bundles_labels (cleanFn : List Nat → List Nat)
    (hcl : ∀ l x, x ∈ cleanFn l → x ∈ l) (bd : BundleDict)
    (sft : List (Nat × Nat)) :
    ∀ p ∈ clean_bundles cleanFn bd sft,
      (∃ bname entry, (bname, entry) ∈ bd ∧ bname ≠ "whole_brain" ∧
        p.2 = entry.uid) ∧ p ∈ sft := by
  induction bd with
  | nil => intro p hp; simp [clean_bundles] at hp
  | cons be rest ih =>
    intro p hp
    simp only [clean_bundles] at hp
    by_cases hb : be.1 = "whole_brain"
    · rw [if_pos hb] at hp
      obtain ⟨⟨bn, en, hmem, hwb, huid⟩, hin⟩ := ih p hp
      exact ⟨⟨bn, en, List.mem_cons_of_mem _ hmem, hwb, huid⟩, hin⟩
    · rw [if_neg hb] at hp
      rcases List.mem_append.mp hp with hp | hp
      · obtain ⟨sl, hsl, rfl⟩ := List.mem_map.mp hp
        have hin : sl ∈ (sft.filter (fun p => p.2 == be.2.uid)).map
            Prod.fst := hcl _ _ hsl
        obtain ⟨q, hq, hq1⟩ := List.mem_map.mp hin
        have hq2 := List.mem_filter.mp hq
        refine ⟨⟨be.1, be.2, by simp, hb, rfl⟩, ?_⟩
        have : q = (sl, be.2.uid) := by
          obtain ⟨q1, q2⟩ := q
          simp only at hq1
          have := beq_iff_eq.mp hq2.2
          simp [hq1, this] at *
          simp_all
        rw [← this]
        exact hq2.1
      · obtain ⟨⟨bn, en, hmem, hwb, huid⟩, hin⟩ := ih p hp
        exact ⟨⟨bn, en, List.mem_cons_of_mem _ hmem, hwb, huid⟩, hin⟩

/-- Witness for `C9_clean_bundles_labels`: the identity cleaner on a
two-streamline input keeps streamline 5 labelled with uid 1 of bundle
`"ARC"`. -/
theorem C9_clean_bundles_labels_witness :
    (∃ bname entry, (bname, entry) ∈ bdEx ∧ bname ≠ "whole_brain" ∧
      ((5, 1) : Nat × Nat).2 = entry.uid) ∧
    ((5, 1) : Nat × Nat) ∈ [((5, 1) : Nat × Nat), (6, 2)] :=
  C9_clean_bundles_labels (fun l => l) (fun _ _ h => h) bdEx
    [(5, 1), (6, 2)] (5, 1) (by decide)

/-- Leftmost match of the regular expression `\d*<sfx>` for a literal
suffix beginning with a non-digit, as `re.search` finds it: start positions
are tried left to right; at a start the greedy digit run must be followed
by the literal suffix (taking fewer digits cannot succeed because the
suffix starts with a non-digit while the next character would be a digit).
The returned value is the matched text, digit run plus suffix. -/
def searchNumThen (sfx : List Char) : List Char → Option (List Char)
  | [] => if sfx.isEmpty then some [] else none
  | c :: rest =>
    let ds := (c :: rest).takeWhile (fun ch => ch.isDigit)
    if sfx.isPrefixOf ((c :: rest).drop ds.length) then
      some (ds ++ sfx)
    else
      searchNumThen sfx rest

/-- Leftmost match of the regular expression `in \d*`: the literal
`"in "` followed by a greedy (possibly empty) digit run. -/
def searchInNum : List Char → Option (List Char)
  | [] => none
  | c :: rest =>
    if ['i', 'n', ' '].isPrefixOf (c :: rest) then
      some ('i' :: 'n' :: ' '
        :: ((c :: rest).drop 3).takeWhile (fun ch => ch.isDigit))
    else
      searchInNum rest

/-- Accumulator loop of `str.split()`. -/
def splitWsAux : List Char → List Char → List (List Char)
  | [], acc => if acc.isEmpty then [] else [acc.reverse]
  | c :: rest, acc =>
    if c = ' ' then
      if acc.isEmpty then splitWsAux rest []
      else acc.reverse :: splitWsAux rest []
    else
      splitWsAux rest (c :: acc)

/-- Python `str.split()` with no argument: split on runs of whitespace,
dropping empty tokens (the only whitespace occurring in the matched
groups is the space character). -/
def pySplitWs (l : List Char) : List (List Char) := splitWsAux l []

/-- Numeric value of a digit string. -/
def digitsToNat (l : List Char) : Nat :=
  l.foldl (fun n c => 10 * n + (c.toNat - 48)) 0

/-- Python `int(token)` on the tokens this script feeds it: a non-empty
all-digit token parses, anything else (such as `"passed"` or `"in"`)
raises `ValueError`. -/
def pyInt (l : List Char) : Except Unit Nat :=
  if l ≠ [] ∧ l.all (fun c => c.isDigit) then .ok (digitsToNat l)
  else .error ()

/-- Expression `0 if m is None else int(m.group().split()[0])`
(parse_test_results.py lines 15-17); the matched group always contains a
non-space character, so the token list is non-empty and the `[0]`
indexing is total. -/
def countOf : Option (List Char) → Except Unit Nat
  | none => .ok 0
  | some g => pyInt ((pySplitWs g).headD [])

/-- Expression `0 if m is None else int(m.group().split()[-1])`
(parse_test_results.py line 18). -/
def secondsOf : Option (List Char) → Except Unit Nat
  | none => .ok 0
  | some g => pyInt ((pySplitWs g).getLastD [])

/-- Embedding of `parse_line` (parse_test_results.py lines 9-20): search
the four patterns, then convert in the order passed, failed, errors,
seconds; a `ValueError` raised by `int` propagates. -/
def parse_line (line : String) : Except Unit (Nat × Nat × Nat × Nat) := do
  let re_passed := searchNumThen " passed".data line.data
  let re_failed := searchNumThen " failed".data line.data
  let re_error := searchNumThen " errors".data line.data
  let re_seconds := searchInNum line.data
  let passed ← countOf re_passed
  let failed ← countOf re_failed
  let errors ← countOf re_error
  let seconds ← secondsOf re_seconds
  pure (passed, failed, errors, seconds)

/-- Embedding of `parse_lines` (parse_test_results.py lines 22-32): apply
`parse_line` to every line, accumulating the four result lists; an
exception in any line propagates. -/
def parse_lines :
    List String → Except Unit (List Nat × List Nat × List Nat × List Nat)
  | [] => .ok ([], [], [], [])
  | line :: rest => do
    let t ← parse_line line
    let r ← parse_lines rest
    pure (t.1 :: r.1, t.2.1 :: r.2.1, t.2.2.1 :: r.2.2.1, t.2.2.2 :: r.2.2.2)

/-- Lines on which every pattern occurrence carries at least one digit, so
each `int` conversion succeeds. -/
def goodLine (line : String) : Bool :=
  (countOf (searchNumThen " passed".data line.data)).isOk &&
  (countOf (searchNumThen " failed".data line.data)).isOk &&
  (countOf (searchNumThen " errors".data line.data)).isOk &&
  (secondsOf (searchInNum line.data)).isOk

theorem countOf_ok (o : Option (List Char)) (h : (countOf o).isOk = true) :
    ∃ n, countOf o = .ok n ∧ (o = none → n = 0) := by
  cases o with
  | none => exact ⟨0, rfl, fun _ => rfl⟩
  | some g =>
    rcases e : countOf (some g) with u | n
    · rw [e] at h
      simp [Except.isOk, Except.toBool] at h
    · exact ⟨n, rfl, fun hn => Option.noConfusion hn⟩

theorem secondsOf_ok (o : Option (List Char))
    (h : (secondsOf o).isOk = true) :
    ∃ n, secondsOf o = .ok n ∧ (o = none → n = 0) := by
  cases o with
  | none => exact ⟨0, rfl, fun _ => rfl⟩
  | some g =>
    rcases e : secondsOf (some g) with u | n
    · rw [e] at h
      simp [Except.isOk, Except.toBool] at h
    · exact ⟨n, rfl, fun hn => Option.noConfusion hn⟩

theorem parse_line_ok (line : String) (h : goodLine line = true) :
    ∃ t, parse_line line = .ok t ∧
      (searchNumThen " passed".data line.data = none → t.1 = 0) ∧
      (searchNumThen " failed".data line.data = none → t.2.1 = 0) ∧
      (searchNumThen " errors".data line.data = none → t.2.2.1 = 0) ∧
      (searchInNum line.data = none → t.2.2.2 = 0) := by
  simp only [goodLine, Bool.and_eq_true] at h
  obtain ⟨⟨⟨hp, hf⟩, he⟩, hs⟩ := h
  obtain ⟨np, ep, hp0⟩ := countOf_ok _ hp
  obtain ⟨nf, ef, hf0⟩ := countOf_ok _ hf
  obtain ⟨ne, ee, he0⟩ := countOf_ok _ he
  obtain ⟨ns, es, hs0⟩ := secondsOf_ok _ hs
  refine ⟨(np, nf, ne, ns), ?_, hp0, hf0, he0, hs0⟩
  simp only [parse_line, ep, ef, ee, es]
  rfl

/-- C10 counterexample: `parse_line` can raise.  On the line `" passed"`
the pattern `\d* passed` matches with an empty digit run, so
`int(m.group().split()[0])` is `int("passed")`, which raises `ValueError`;
`parse_lines` propagates it, so it does not return four lists for this
one-line input. -/
theorem C10_counterexample :
    parse_line " passed" = .error () ∧
    parse_lines [" passed"] = .error () := by
  decide

/-- C10 amended: `parse_line` returns a 4-tuple of non-negative counts,
with 0 for each pattern that does not occur, on every line whose pattern
occurrences each carry at least one digit; on a line where a pattern
occurs with an empty digit run (such as `" passed"`) the `int` conversion
raises `ValueError` instead, and `parse_lines` then propagates the error;
when every line is well-formed in this sense, `parse_lines` returns four
lists each of length equal to the number of input lines. -/
theorem C10_amended_parse (line : String) (lines : List String)
    (h : goodLine line = true) (hs : ∀ l ∈ lines, goodLine l = true) :
    (∃ t, parse_line line = .ok t ∧
      (searchNumThen " passed".data line.data = none → t.1 = 0) ∧
      (searchNumThen " failed".data line.data = none → t.2.1 = 0) ∧
      (searchNumThen " errors".data line.data = none → t.2.2.1 = 0) ∧
      (searchInNum line.data = none → t.2.2.2 = 0)) ∧
    (∃ q, parse_lines lines = .ok q ∧
      q.1.length = lines.length ∧ q.2.1.length = lines.length ∧
      q.2.2.1.length = lines.length ∧ q.2.2.2.length = lines.length) := by
  refine ⟨parse_line_ok line h, ?_⟩
  clear h
  induction lines with
  | nil => exact ⟨([], [], [], []), rfl, rfl, rfl, rfl, rfl⟩
  | cons l rest ih =>
    obtain ⟨t, et, _⟩ := parse_line_ok l (hs l (List.mem_cons_self _ _))
    obtain ⟨q, eq, h1, h2, h3, h4⟩ :=
      ih (fun x hx => hs x (List.mem_cons_of_mem _ hx))
    refine ⟨(t.1 :: q.1, t.2.1 :: q.2.1, t.2.2.1 :: q.2.2.1,
      t.2.2.2 :: q.2.2.2), ?_, ?_, ?_, ?_, ?_⟩
    · show parse_lines (l :: rest) = _
      simp only [parse_lines, et, eq]
      rfl
    · simp [h1]
    · simp [h2]
    · simp [h3]
    · simp [h4]

/-- Witness for `C10_amended_parse` on a concrete pytest summary line. -/
theorem C10_amended_parse_witness :
    goodLine "3 passed, 1 failed in 12" = true ∧
    ((∃ t, parse_line "3 passed, 1 failed in 12" = .ok t ∧
      (searchNumThen " passed".data
        "3 passed, 1 failed in 12".data = none → t.1 = 0) ∧
      (searchNumThen " failed".data
        "3 passed, 1 failed in 12".data = none → t.2.1 = 0) ∧
      (searchNumThen " errors".data
        "3 passed, 1 failed in 12".data = none → t.2.2.1 = 0) ∧
      (searchInNum "3 passed, 1 failed in 12".data = none →
        t.2.2.2 = 0)) ∧
    (∃ q, parse_lines ["5 passed in 3"] = .ok q ∧
      q.1.length = ["5 passed in 3"].length ∧
      q.2.1.length = ["5 passed in 3"].length ∧
      q.2.2.1.length = ["5 passed in 3"].length ∧
      q.2.2.2.length = ["5 passed in 3"].length)) :=
  ⟨by decide,
    C10_amended_parse "3 passed, 1 failed in 12" ["5 passed in 3"]
      (by decide) (by decide)⟩

end PyAFQ
